import Mathlib

/-!
Verification of the replacement engine and run controller of the
`mtl-tools` replacer application (`src/replacer/src/main.rs`,
`src/replacer/src/step.rs`, `src/replacer/src/text_project.rs`).

The engine `replace_text` and the relevant `Msg` handlers of the yew
`Model::update` function are shallowly embedded below.  Rust machine
integers become `Nat` (all quantities here are lengths, indices and a
32-bit checksum, which stays below `2 ^ 32` because it is produced by
`Nat.xor` / division of numbers below `2 ^ 32`).  The `HashMap` /
`HashSet` pair used by the cycle detector becomes an association list
keyed by lengths.  The external async runtime disappears: the 1 ms
cooperative sleep has no effect on the computed result, the atomic
cancellation flag is a `Bool` fixed for the run, and the Rust `loop`
gets an explicit fuel with `none` meaning the fuel ran out before the
loop terminated.
-/

set_option autoImplicit false

namespace Replacer

/-- `CancelMotive` from `src/replacer/src/text_project.rs`. -/
inductive CancelMotive where
  | ManuallyCancelled
  | CycleDetected
  | HighGrowth
deriving DecidableEq

/-- `OutputStatus` from `src/replacer/src/text_project.rs`. -/
inductive OutputStatus where
  | Outdated
  | InProgress
  | Done
  | Cancelled (motive : CancelMotive)
deriving DecidableEq

/-- Boolean list membership for `Nat`, used to model `HashSet` membership. -/
def natMem : List Nat → Nat → Bool
  | [], _ => false
  | a :: l, n => (a == n) || natMem l n

/-- Boolean "no duplicate" test on a list of `Nat`. -/
def natsNodup : List Nat → Bool
  | [] => true
  | a :: l => (!natMem l a) && natsNodup l

/-- UTF-8 encoding of a single code point, as a list of byte values.
Rust strings are UTF-8, and both `content.len()` and the bytes fed to the
checksum in `replace_text` are in terms of this encoding. -/
def utf8Bytes (n : Nat) : List Nat :=
  if n < 0x80 then [n]
  else if n < 0x800 then [0xC0 + n / 64, 0x80 + n % 64]
  else if n < 0x10000 then [0xE0 + n / 4096, 0x80 + (n / 64) % 64, 0x80 + n % 64]
  else [0xF0 + n / 262144, 0x80 + (n / 4096) % 64, 0x80 + (n / 64) % 64, 0x80 + n % 64]

/-- The UTF-8 bytes of a string: Rust's `content.as_bytes()`. -/
def strBytes (s : String) : List Nat :=
  (s.data.map (fun c => utf8Bytes c.toNat)).flatten

/-- Rust's `content.len()`: the UTF-8 byte length of the string. -/
def byteLen (s : String) : Nat :=
  (strBytes s).length

/-- One bit-level round of the CRC-32 update (polynomial `0xEDB88320`,
reflected form), as computed by the `crc32fast::Hasher` used in
`replace_text`. -/
def crc32Round (crc : Nat) : Nat :=
  if crc % 2 = 1 then Nat.xor (crc / 2) 0xEDB88320 else crc / 2

/-- Iterate `crc32Round`. -/
def crc32Rounds : Nat → Nat → Nat
  | 0, crc => crc
  | n + 1, crc => crc32Rounds n (crc32Round crc)

/-- CRC-32 update by one byte. -/
def crc32UpdateByte (crc b : Nat) : Nat :=
  crc32Rounds 8 (Nat.xor crc b)

/-- The CRC-32 checksum of a string's UTF-8 bytes: the value of
`Hasher::new(); hasher.update(content.as_bytes()); hasher.finalize()`
in `replace_text` (standard CRC-32/ISO-HDLC). -/
def crc32 (s : String) : Nat :=
  Nat.xor ((strBytes s).foldl crc32UpdateByte 0xFFFFFFFF) 0xFFFFFFFF

/-- A compiled pattern, abstracted to the two operations the engine calls
on a `regex::Regex`: `is_match` and `replace_all` (the latter taking the
replacement template). -/
structure RegexM where
  isMatch : String → Bool
  replaceAll : String → String → String

/-- Boolean list-prefix test on characters. -/
def charsPrefixOf : List Char → List Char → Bool
  | [], _ => true
  | _ :: _, [] => false
  | a :: pa, b :: sb => (a == b) && charsPrefixOf pa sb

/-- Substring occurrence test for a literal pattern. -/
def litContains (pat : List Char) : List Char → Bool
  | [] => charsPrefixOf pat []
  | c :: rest => charsPrefixOf pat (c :: rest) || litContains pat rest

/-- Replace every (leftmost, non-overlapping) occurrence of a non-empty
literal pattern, with fuel given by the length of the text. -/
def litReplaceAllAux (pat repl : List Char) : Nat → List Char → List Char
  | _, [] => []
  | 0, s => s
  | fuel + 1, c :: rest =>
    if charsPrefixOf pat (c :: rest) then
      repl ++ litReplaceAllAux pat repl fuel (List.drop (pat.length - 1) rest)
    else
      c :: litReplaceAllAux pat repl fuel rest

/-- Replace every occurrence of a literal pattern in a text. -/
def litReplaceAll (pat repl s : List Char) : List Char :=
  litReplaceAllAux pat repl s.length s

/-- The compiled form of a non-empty pattern consisting only of literal
characters: matches exactly when the pattern occurs as a substring, and
`replace_all` rewrites every occurrence (as `regex::Regex` does for a
literal pattern and a template without capture-group references). -/
def litRegex (pat : String) : RegexM where
  isMatch := fun s => litContains pat.data s.data
  replaceAll := fun content repl => String.mk (litReplaceAll pat.data repl.data content.data)

/-- Interleave the replacement after every character. -/
def interReplace (repl : List Char) : List Char → List Char
  | [] => []
  | c :: rest => c :: (repl ++ interReplace repl rest)

/-- The compiled form of the empty pattern `""`.  `regex::Regex::new("")`
succeeds, and the resulting regex matches the empty string at every
position of any haystack, so `is_match` is constantly true and
`replace_all` inserts the replacement at every character boundary
(leaving the haystack unchanged when the replacement is empty). -/
def emptyRegex : RegexM where
  isMatch := fun _ => true
  replaceAll := fun content repl => String.mk (repl.data ++ interReplace repl.data content.data)

/-- Characters treated as regex metacharacters by the model compiler. -/
def isRegexMeta (c : Char) : Bool :=
  c == '.' || c == '+' || c == '*' || c == '?' || c == '(' || c == ')' ||
  c == '[' || c == ']' || c == '|' || c == '^' || c == '$' || c == '\\'

/-- Model of the external `regex::Regex::new` compiler, restricted to the
pattern fragment this development exercises, faithful to the crate's
documented behaviour on that fragment: the empty pattern `""` compiles
successfully to the empty regex (which matches at every position); a
non-empty pattern of plain literal characters compiles to a literal
matcher; a pattern containing a metacharacter (in particular a lone
unclosed `[`) is reported as a parse error carrying the pattern text. -/
def regexNew (pat : String) : Except String RegexM :=
  if pat.data.all (fun c => !isRegexMeta c) then
    if pat = "" then Except.ok emptyRegex else Except.ok (litRegex pat)
  else
    Except.error pat

/-- One compiled rule of a step: the pair `(regex::Regex, String)` pushed
by the `Msg::StartReplacingText` handler. -/
structure RuleC where
  re : RegexM
  repl : String

/-- The inner `for (re, replacement) in step_regexes` loop of
`replace_text`: the first rule whose pattern matches the content performs
its `replace_all` and the scan stops (`break`); if no rule matches the
result is `none` (`just_replaced` stays false). -/
def applyFirst : List RuleC → String → Option String
  | [], _ => none
  | r :: rest, content =>
    if r.re.isMatch content then some (r.re.replaceAll content r.repl)
    else applyFirst rest content

/-- The per-step `HashMap<usize, Option<HashSet<u32>>>` of `replace_text`,
as an association list from a content length to `none` (length seen once,
no checksum computed yet) or `some hashes` (checksums recorded for that
length). -/
def LenTable : Type := List (Nat × Option (List Nat))

/-- `HashMap` lookup on the length table. -/
def lookupLen : LenTable → Nat → Option (Option (List Nat))
  | [], _ => none
  | (k, v) :: rest, n => if k = n then some v else lookupLen rest n

/-- `HashMap` insert/overwrite on the length table. -/
def setLen : LenTable → Nat → Option (List Nat) → LenTable
  | [], n, v => [(n, v)]
  | (k, w) :: rest, n, v =>
    if k = n then (n, v) :: rest else (k, w) :: setLen rest n v

/-- The cycle check at the top of the `replace_text` loop (the `match
hash_maps.get_mut(&content.len())` block): a new length is recorded with
no checksum; on the second occurrence of a length the CRC-32 checksum is
computed and recorded; on later occurrences the checksum is computed and
tested against the recorded set — `none` means the checksum was already
present and a replacement cycle is declared. -/
def cycleCheck (maps : LenTable) (content : String) : Option LenTable :=
  match lookupLen maps (byteLen content) with
  | none => some (setLen maps (byteLen content) none)
  | some none => some (setLen maps (byteLen content) (some [crc32 content]))
  | some (some hashes) =>
    if natMem hashes (crc32 content) then none
    else some (setLen maps (byteLen content) (some (crc32 content :: hashes)))

/-- The growth guard of `replace_text`:
`content.len() > 4 * original_len && content.len() > 1000`. -/
def growthGuard (currentLen originalLen : Nat) : Bool :=
  decide (currentLen > 4 * originalLen) && decide (currentLen > 1000)

/-- One step's fixpoint loop (the `loop` of `replace_text`), with explicit
fuel: cycle check, cancellation check, growth check, cooperative sleep
(no effect on the result), then the first-matching-rule substitution;
a substitution restarts the loop, otherwise the step is finished.
`none` means the fuel ran out before the loop terminated. -/
def stepLoop (cancel : Bool) (originalLen : Nat) (rules : List RuleC) :
    Nat → String → LenTable → Option (Except (CancelMotive × String) String)
  | 0, _, _ => none
  | fuel + 1, content, maps =>
    match cycleCheck maps content with
    | none => some (Except.error (CancelMotive.CycleDetected, content))
    | some maps' =>
      if cancel then some (Except.error (CancelMotive.ManuallyCancelled, content))
      else if growthGuard (byteLen content) originalLen then
        some (Except.error (CancelMotive.HighGrowth, content))
      else
        match applyFirst rules content with
        | some content' => stepLoop cancel originalLen rules fuel content' maps'
        | none => some (Except.ok content)

/-- The outer `for step_regexes in &steps_regexes` loop of `replace_text`:
each step starts with a fresh, empty length table; an error aborts the
whole run, otherwise the step's final content feeds the next step. -/
def replaceSteps (cancel : Bool) (originalLen fuel : Nat) :
    List (List RuleC) → String → Option (Except (CancelMotive × String) String)
  | [], content => some (Except.ok content)
  | rules :: rest, content =>
    match stepLoop cancel originalLen rules fuel content [] with
    | none => none
    | some (Except.error e) => some (Except.error e)
    | some (Except.ok c) => replaceSteps cancel originalLen fuel rest c

/-- `replace_text` from `src/replacer/src/main.rs`: `original_len` is
fixed from the input before any rewriting, and the steps run in order on
the evolving content. -/
def replace_text (cancel : Bool) (fuel : Nat) (original : String)
    (stepsRegexes : List (List RuleC)) : Option (Except (CancelMotive × String) String) :=
  replaceSteps cancel (byteLen original) fuel stepsRegexes original

/-! ### The UI data model and the `Model::update` handlers the claims need -/

/-- `RegexInfo` from `src/replacer/src/step.rs`.  The `rmatch` field is the
Rust `r#match : Result<regex::Regex, String>`: a compiled pattern, or the
raw pattern text when it did not compile (the default is `Err("")`).
`match_parse_error` models the stored `Option<regex::Error>` by the error
message. -/
structure RegexInfo where
  title : String
  rmatch : Except String RegexM
  match_parse_error : Option String
  replace : String

/-- `VirtualSort` from `src/replacer/src/step.rs`. -/
inductive VirtualSort where
  | None
  | CharLength
  | CharLengthRev

/-- `StepProps` from `src/replacer/src/step.rs`. -/
structure StepProps where
  title : String
  enabled : Bool
  selected : Bool
  restart_on_match : Bool
  virtual_sort : VirtualSort

/-- `Step` from `src/replacer/src/step.rs`. -/
structure Step where
  props : StepProps
  regexes : List RegexInfo

/-- `TextProjectProps` from `src/replacer/src/text_project.rs`. -/
structure TextProjectProps where
  title : String
  commentary : Option String

/-- `TextProject` from `src/replacer/src/text_project.rs`. -/
structure TextProject where
  props : TextProjectProps
  input : String
  output : String
  output_status : OutputStatus

/-- `Default for RegexInfo`: the raw pattern text starts as `Err("")`. -/
def RegexInfo.default : RegexInfo :=
  { title := "", rmatch := Except.error "", match_parse_error := none, replace := "" }

/-- `Default for StepProps`. -/
def StepProps.default : StepProps :=
  { title := "", enabled := true, selected := false,
    restart_on_match := true, virtual_sort := VirtualSort.None }

/-- `Default for Step`. -/
def Step.default : Step :=
  { props := StepProps.default, regexes := [] }

/-- `Default for TextProject` (status defaults to `Done`). -/
def TextProject.default : TextProject :=
  { props := { title := "", commentary := none }, input := "", output := "",
    output_status := OutputStatus.Done }

/-- The `Model` state from `src/replacer/src/main.rs`.  The
`Arc<AtomicBool>` cancellation flag becomes a `Bool` field. -/
structure Model where
  text_projects : List TextProject
  active_text_project : Option Nat
  replacement_in_progress : Bool
  replacement_cancel_signal : Bool
  steps : List Step
  steps_edit : List Nat
  active_regex_index : Option Nat

/-- Rust `self.text_projects[i]` (reads are only performed in-range). -/
def getProject (ps : List TextProject) (i : Nat) : TextProject :=
  ps.getD i TextProject.default

/-- In-place mutation of `self.text_projects[i]`. -/
def updateProject (ps : List TextProject) (i : Nat) (f : TextProject → TextProject) :
    List TextProject :=
  ps.set i (f (getProject ps i))

/-- Rust `self.steps[i]`. -/
def getStep (ss : List Step) (i : Nat) : Step :=
  ss.getD i Step.default

/-- In-place mutation of `self.steps[i]`. -/
def updateStep (ss : List Step) (i : Nat) (f : Step → Step) : List Step :=
  ss.set i (f (getStep ss i))

/-- Rust `step.regexes[j]`. -/
def getRegexInfo (rs : List RegexInfo) (j : Nat) : RegexInfo :=
  rs.getD j RegexInfo.default

/-- In-place mutation of `step.regexes[j]`. -/
def updateRegexInfo (rs : List RegexInfo) (j : Nat) (f : RegexInfo → RegexInfo) :
    List RegexInfo :=
  rs.set j (f (getRegexInfo rs j))

/-- The `Msg::UpdateRegexSearch` handler: recompile the edited pattern
text; on success store the compiled regex and clear the stored parse
error, on failure store the raw text and the parse error. -/
def updateRegexSearch (m : Model) (stepIndex regexIndex : Nat) (search : String) : Model :=
  { m with steps := updateStep m.steps stepIndex (fun st =>
      { st with regexes := updateRegexInfo st.regexes regexIndex (fun r =>
          match regexNew search with
          | Except.ok re => { r with rmatch := Except.ok re, match_parse_error := none }
          | Except.error err =>
            { r with rmatch := Except.error search, match_parse_error := some err }) }) }

/-- The `Msg::InputUpdated` handler.  The returned `Bool` is the handler's
yew re-render result: `false` means the edit was rejected (a replacement
is in progress) and the state is unchanged; otherwise the project's input
is replaced and its status set to `Outdated`. -/
def inputUpdated (m : Model) (projectIndex : Nat) (value : String) : Model × Bool :=
  if m.replacement_in_progress then (m, false)
  else
    ({ m with text_projects := updateProject m.text_projects projectIndex (fun p =>
        { p with input := value, output_status := OutputStatus.Outdated }) }, true)

/-- The regex-collection part of the `Msg::StartReplacingText` handler,
innermost loop: a compiled pattern is pushed with its replacement; an
uncompiled pattern whose raw text is empty is skipped; any other
uncompiled pattern aborts with that pattern text. -/
def compileRegexes : List RegexInfo → Except String (List RuleC)
  | [] => Except.ok []
  | r :: rest =>
    match r.rmatch with
    | Except.ok re =>
      match compileRegexes rest with
      | Except.ok tail => Except.ok ({ re := re, repl := r.replace } :: tail)
      | Except.error e => Except.error e
    | Except.error s =>
      if s = "" then compileRegexes rest else Except.error s

/-- The regex-collection loop of the `Msg::StartReplacingText` handler:
`for (i, step) in self.steps.iter().enumerate()` — note that it iterates
over every step of the model, without consulting `step.props.enabled`. -/
def compileSteps : List Step → Except String (List (List RuleC))
  | [] => Except.ok []
  | st :: rest =>
    match compileRegexes st.regexes with
    | Except.error e => Except.error e
    | Except.ok rs =>
      match compileSteps rest with
      | Except.ok rss => Except.ok (rs :: rss)
      | Except.error e => Except.error e

/-- What the `Msg::StartReplacingText` handler did besides mutating the
model: rejected the request (no project selected, or a replacement in
progress), aborted on a pattern parse error (reporting the offending
pattern text), or spawned the engine on the compiled pipeline and the
project's input snapshot. -/
inductive StartOutcome where
  | noProject
  | alreadyInProgress
  | parseError (pattern : String)
  | started (regexes : List (List RuleC)) (input : String)

/-- The `Msg::StartReplacingText` handler.  It first checks the global
in-progress flag, then sets the flag and the project status to
`InProgress`, then collects the compiled rules (returning early, with the
already-mutated state, on a parse error), and only on success clears the
cancellation flag and spawns the engine. -/
def startReplacingText (m : Model) (projectIndex : Option Nat) : Model × StartOutcome :=
  match projectIndex with
  | none => (m, StartOutcome.noProject)
  | some pi =>
    if m.replacement_in_progress then (m, StartOutcome.alreadyInProgress)
    else
      let m1 : Model :=
        { m with replacement_in_progress := true,
                 text_projects := updateProject m.text_projects pi (fun p =>
                   { p with output_status := OutputStatus.InProgress }) }
      match compileSteps m1.steps with
      | Except.error s => (m1, StartOutcome.parseError s)
      | Except.ok regexes =>
        ({ m1 with replacement_cancel_signal := false },
         StartOutcome.started regexes (getProject m1.text_projects pi).input)

/-- The `Msg::FinishReplacingText` handler: clear the in-progress flag,
store the final content as the project's output with status `Done`, and
reset the cancellation flag. -/
def finishReplacingText (m : Model) (projectIndex : Nat) (content : String) : Model :=
  { m with replacement_in_progress := false,
           text_projects := updateProject m.text_projects projectIndex (fun p =>
             { p with output := content, output_status := OutputStatus.Done }),
           replacement_cancel_signal := false }

/-- The `Msg::CancelledReplacingText` handler: clear the in-progress flag,
store the partial content as the project's output with status
`Cancelled(motive)`, and reset the cancellation flag. -/
def cancelledReplacingText (m : Model) (projectIndex : Nat) (motive : CancelMotive)
    (latestContent : String) : Model :=
  { m with replacement_in_progress := false,
           text_projects := updateProject m.text_projects projectIndex (fun p =>
             { p with output := latestContent, output_status := OutputStatus.Cancelled motive }),
           replacement_cancel_signal := false }

/-! ### Trace of a step's fixpoint iteration, for the cycle-safety claim -/

/-- The successive contents visited by one step's fixpoint loop (ignoring
the abort checks), up to the given fuel. -/
def iterTrace (rules : List RuleC) : Nat → String → List String
  | 0, content => [content]
  | fuel + 1, content =>
    match applyFirst rules content with
    | none => [content]
    | some content' => content :: iterTrace rules fuel content'

/-- The content a step's fixpoint loop converges to (ignoring the abort
checks), up to the given fuel. -/
def iterFinal (rules : List RuleC) : Nat → String → String
  | 0, content => content
  | fuel + 1, content =>
    match applyFirst rules content with
    | none => content
    | some content' => iterFinal rules fuel content'

/-- Within every step of the run, the content lengths visited by that
step's fixpoint loop are pairwise distinct. -/
def nodupRun (fuel : Nat) : List (List RuleC) → String → Bool
  | [], _ => true
  | rules :: rest, content =>
    natsNodup ((iterTrace rules fuel content).map byteLen) &&
      nodupRun fuel rest (iterFinal rules fuel content)

/-! ### Concrete model states used by the code-level evaluations -/

/-- A step whose `enabled` flag is false, holding the single compiled rule
`"a" -> "b"`. -/
def disabledStep : Step :=
  { props := { StepProps.default with enabled := false },
    regexes := [{ RegexInfo.default with rmatch := Except.ok (litRegex "a"), replace := "b" }] }

/-- A model with one project whose input is `"a"` and one disabled step. -/
def modelDisabled : Model :=
  { text_projects := [{ TextProject.default with input := "a" }],
    active_text_project := some 0,
    replacement_in_progress := false,
    replacement_cancel_signal := false,
    steps := [disabledStep],
    steps_edit := [],
    active_regex_index := none }

/-- A project with input `"hello"` and status `Outdated`. -/
def projectOutdated : TextProject :=
  { TextProject.default with input := "hello", output_status := OutputStatus.Outdated }

/-- A rule whose non-empty pattern text `"["` failed to compile (as after
editing the pattern text to `"["`). -/
def badRule : RegexInfo :=
  { RegexInfo.default with rmatch := Except.error "[" }

/-- A model with one project and one step holding `badRule`. -/
def modelBadPattern : Model :=
  { text_projects := [projectOutdated],
    active_text_project := some 0,
    replacement_in_progress := false,
    replacement_cancel_signal := false,
    steps := [{ props := StepProps.default, regexes := [badRule] }],
    steps_edit := [],
    active_regex_index := none }

/-- A model with one project whose input is `"a"` and one step holding a
single freshly added (default) rule. -/
def modelFreshRule : Model :=
  { text_projects := [{ TextProject.default with input := "a" }],
    active_text_project := some 0,
    replacement_in_progress := false,
    replacement_cancel_signal := false,
    steps := [{ props := StepProps.default, regexes := [RegexInfo.default] }],
    steps_edit := [],
    active_regex_index := none }

/-- `modelFreshRule` after the user edits the rule's pattern text to the
empty string (the `Msg::UpdateRegexSearch` handler recompiles it). -/
def modelEmptied : Model :=
  updateRegexSearch modelFreshRule 0 0 ""

/-- A project with input `"p0"` and status `InProgress`: the project whose
run is active in `modelBusy`. -/
def projectRunning : TextProject :=
  { TextProject.default with input := "p0", output_status := OutputStatus.InProgress }

/-- An idle project with input `"p1"`. -/
def projectIdle : TextProject :=
  { TextProject.default with input := "p1" }

/-- A model with two projects in which a run is in progress on project 0
(global in-progress flag set, project 0 status `InProgress`). -/
def modelBusy : Model :=
  { text_projects := [projectRunning, projectIdle],
    active_text_project := some 1,
    replacement_in_progress := true,
    replacement_cancel_signal := false,
    steps := [Step.default],
    steps_edit := [],
    active_regex_index := none }

/-- The compiled rule `"cat" -> "dog"` as a `RegexInfo`. -/
def catDogRule : RegexInfo :=
  { RegexInfo.default with rmatch := Except.ok (litRegex "cat"), replace := "dog" }

/-- A model with one project whose input is `"a cat sat"` and one step
holding `catDogRule`. -/
def modelCatDog : Model :=
  { text_projects := [{ TextProject.default with input := "a cat sat" }],
    active_text_project := some 0,
    replacement_in_progress := false,
    replacement_cancel_signal := false,
    steps := [{ props := StepProps.default, regexes := [catDogRule] }],
    steps_edit := [],
    active_regex_index := none }

/-! ### Helper lemmas -/

/-- Setting index `i` of a list and reading index `i` back yields the
written value, when `i` is in range. -/
theorem list_getD_set_self {α : Type} (l : List α) (i : Nat) (x d : α) (h : i < l.length) :
    (l.set i x).getD i d = x := by
  induction l generalizing i with
  | nil => simp at h
  | cons a rest ih =>
    cases i with
    | zero => rfl
    | succ n =>
      have hn : n < rest.length := by simpa using h
      simpa [List.set, List.getD] using ih n hn

/-- Reading back a projectwise in-place mutation, in range. -/
theorem getProject_updateProject (ps : List TextProject) (i : Nat)
    (f : TextProject → TextProject) (h : i < ps.length) :
    getProject (updateProject ps i f) i = f (getProject ps i) := by
  unfold getProject updateProject
  exact list_getD_set_self ps i (f (getProject ps i)) TextProject.default h

/-- Lookup after a `setLen` write on the length table. -/
theorem lookupLen_setLen (maps : LenTable) (n : Nat) (v : Option (List Nat)) (k : Nat) :
    lookupLen (setLen maps n v) k = if k = n then some v else lookupLen maps k := by
  induction maps with
  | nil =>
    by_cases h : k = n
    · simp [setLen, lookupLen, h]
    · simp [setLen, lookupLen, h, Ne.symm h]
  | cons p rest ih =>
    obtain ⟨k0, v0⟩ := p
    by_cases h1 : k0 = n
    · subst h1
      by_cases h2 : k = k0
      · subst h2; simp [setLen, lookupLen]
      · simp [setLen, lookupLen, h2, Ne.symm h2]
    · by_cases h3 : k0 = k
      · subst h3
        have h2 : ¬k0 = n := h1
        simp [setLen, lookupLen, h1, h2]
      · simp [setLen, lookupLen, h1, h3, ih]

/-- The head of a step's iteration trace is the starting content, so the
starting content's length is among the trace's lengths. -/
theorem iterTrace_head_mem (rules : List RuleC) (fuel : Nat) (content : String) :
    natMem ((iterTrace rules fuel content).map byteLen) (byteLen content) = true := by
  cases fuel with
  | zero => simp [iterTrace, natMem]
  | succ fuel => cases h : applyFirst rules content <;> simp [iterTrace, h, natMem]

/-- If the lengths visited by a step's fixpoint loop are pairwise distinct
and the length table holds no key among those lengths, the loop never
declares a replacement cycle. -/
theorem stepLoop_no_cycle (cancel : Bool) (ol : Nat) (rules : List RuleC) :
    ∀ (fuel : Nat) (content : String) (maps : LenTable),
      natsNodup ((iterTrace rules fuel content).map byteLen) = true →
      (∀ k v, lookupLen maps k = some v →
        natMem ((iterTrace rules fuel content).map byteLen) k = false) →
      ∀ c, stepLoop cancel ol rules fuel content maps
        ≠ some (Except.error (CancelMotive.CycleDetected, c)) := by
  intro fuel
  induction fuel with
  | zero =>
    intro content maps _ _ c
    simp [stepLoop]
  | succ fuel ih =>
    intro content maps hnd hdisj c
    have hlook : lookupLen maps (byteLen content) = none := by
      cases hl : lookupLen maps (byteLen content) with
      | none => rfl
      | some v =>
        have hfalse := hdisj _ _ hl
        have htrue := iterTrace_head_mem rules (fuel + 1) content
        rw [hfalse] at htrue
        cases htrue
    have hcc : cycleCheck maps content = some (setLen maps (byteLen content) none) := by
      simp [cycleCheck, hlook]
    simp only [stepLoop, hcc]
    by_cases hcan : cancel = true
    · simp [hcan]
    · rw [if_neg hcan]
      cases hg : growthGuard (byteLen content) ol with
      | true => simp
      | false =>
        simp only [Bool.false_eq_true, if_false]
        cases hap : applyFirst rules content with
        | none => simp
        | some content' =>
          have htrace : iterTrace rules (fuel + 1) content
              = content :: iterTrace rules fuel content' := by
            simp [iterTrace, hap]
          rw [htrace] at hnd hdisj
          simp only [List.map_cons, natsNodup, Bool.and_eq_true, Bool.not_eq_true'] at hnd
          refine ih content' (setLen maps (byteLen content) none) hnd.2 ?_ c
          intro k v hk
          rw [lookupLen_setLen] at hk
          by_cases hkn : k = byteLen content
          · subst hkn
            exact hnd.1
          · rw [if_neg hkn] at hk
            have hmem := hdisj _ _ hk
            simp only [List.map_cons, natMem] at hmem
            cases hm2 : natMem ((iterTrace rules fuel content').map byteLen) k with
            | false => rfl
            | true =>
              rw [hm2, Bool.or_true] at hmem
              cases hmem

/-- When a step's fixpoint loop terminates without an abort, the content
it returns is the pure fixpoint of the first-matching-rule iteration. -/
theorem stepLoop_ok_final (cancel : Bool) (ol : Nat) (rules : List RuleC) :
    ∀ (fuel : Nat) (content : String) (maps : LenTable) (c : String),
      stepLoop cancel ol rules fuel content maps = some (Except.ok c) →
      c = iterFinal rules fuel content := by
  intro fuel
  induction fuel with
  | zero =>
    intro content maps c h
    simp [stepLoop] at h
  | succ fuel ih =>
    intro content maps c h
    simp only [stepLoop] at h
    cases hcc : cycleCheck maps content with
    | none =>
      simp [hcc] at h
    | some maps' =>
      simp only [hcc] at h
      by_cases hcan : cancel = true
      · simp [if_pos hcan] at h
      · simp only [if_neg hcan] at h
        cases hg : growthGuard (byteLen content) ol with
        | true =>
          simp [hg] at h
        | false =>
          simp only [hg, Bool.false_eq_true, if_false] at h
          cases hap : applyFirst rules content with
          | none =>
            simp only [hap, Option.some.injEq, Except.ok.injEq] at h
            rw [← h]
            simp [iterFinal, hap]
          | some content' =>
            simp only [hap] at h
            have hrec := ih content' maps' c h
            simp [iterFinal, hap, hrec]

/-- Runs whose per-step iteration traces have pairwise-distinct content
lengths never end in `CycleDetected`. -/
theorem replaceSteps_no_cycle (cancel : Bool) (ol fuel : Nat) :
    ∀ (steps : List (List RuleC)) (content : String),
      nodupRun fuel steps content = true →
      ∀ c, replaceSteps cancel ol fuel steps content
        ≠ some (Except.error (CancelMotive.CycleDetected, c)) := by
  intro steps
  induction steps with
  | nil =>
    intro content _ c
    simp [replaceSteps]
  | cons rules rest ih =>
    intro content hnd c
    simp only [nodupRun, Bool.and_eq_true] at hnd
    obtain ⟨h1, h2⟩ := hnd
    simp only [replaceSteps]
    cases hsl : stepLoop cancel ol rules fuel content [] with
    | none => simp
    | some r =>
      cases r with
      | error e =>
        show some (Except.error e) ≠ some (Except.error (CancelMotive.CycleDetected, c))
        rw [← hsl]
        exact stepLoop_no_cycle cancel ol rules fuel content [] h1
          (fun k v hk => by simp [lookupLen] at hk) c
      | ok c1 =>
        show replaceSteps cancel ol fuel rest c1
          ≠ some (Except.error (CancelMotive.CycleDetected, c))
        have hc1 : c1 = iterFinal rules fuel content :=
          stepLoop_ok_final cancel ol rules fuel content [] c1 hsl
        rw [hc1]
        exact ih (iterFinal rules fuel content) h2 c

/-- Whenever a step's fixpoint loop ends the run with motive `HighGrowth`,
the growth guard holds at the content it returns. -/
theorem stepLoop_highGrowth_guard (cancel : Bool) (ol : Nat) (rules : List RuleC) :
    ∀ (fuel : Nat) (content : String) (maps : LenTable) (c : String),
      stepLoop cancel ol rules fuel content maps
        = some (Except.error (CancelMotive.HighGrowth, c)) →
      growthGuard (byteLen c) ol = true := by
  intro fuel
  induction fuel with
  | zero =>
    intro content maps c h
    simp [stepLoop] at h
  | succ fuel ih =>
    intro content maps c h
    simp only [stepLoop] at h
    cases hcc : cycleCheck maps content with
    | none =>
      simp [hcc] at h
    | some maps' =>
      simp only [hcc] at h
      by_cases hcan : cancel = true
      · simp [if_pos hcan] at h
      · simp only [if_neg hcan] at h
        cases hg : growthGuard (byteLen content) ol with
        | true =>
          simp only [hg, if_true, Option.some.injEq, Except.error.injEq,
            Prod.mk.injEq] at h
          rw [← h.2]
          exact hg
        | false =>
          simp only [hg, Bool.false_eq_true, if_false] at h
          cases hap : applyFirst rules content with
          | none =>
            simp [hap] at h
          | some content' =>
            simp only [hap] at h
            exact ih content' maps' c h

/-! ### The claims -/

/-- C1: the claim says the pipeline is filtered to enabled Steps, so a
Step with `enabled = false` contributes no rules to a run.  The code's
`Msg::StartReplacingText` handler never consults `step.props.enabled`:
with a single disabled step holding the rule `"a" -> "b"`, the run is
started with that step's rule compiled into the pipeline, and the engine
rewrites input `"a"` to `"b"` instead of leaving it untouched. -/
theorem c1_disabled_step_rules_included :
    disabledStep.props.enabled = false ∧
    (startReplacingText modelDisabled (some 0)).2
      = StartOutcome.started [[⟨litRegex "a", "b"⟩]] "a" ∧
    replace_text false 2 "a" [[⟨litRegex "a", "b"⟩]] = some (Except.ok "b") :=
  ⟨rfl, rfl, rfl⟩

/-- C2: the claim says a run-start hitting a rule whose non-empty pattern
text failed to compile aborts with project state untouched (no stuck
`InProgress`, no lingering in-progress flag).  The code does report the
offending pattern and processes no content, but it sets the global
in-progress flag and the project status to `InProgress` before compiling
and returns early without resetting them: after the aborted start the
flag is still set and the status is still `InProgress`. -/
theorem c2_parse_error_leaves_state_stuck :
    (startReplacingText modelBadPattern (some 0)).2 = StartOutcome.parseError "[" ∧
    (startReplacingText modelBadPattern (some 0)).1.replacement_in_progress = true ∧
    (getProject (startReplacingText modelBadPattern (some 0)).1.text_projects 0).output_status
      = OutputStatus.InProgress :=
  ⟨rfl, rfl, rfl⟩

/-- C3: the claim says a rule whose raw pattern text is empty is inert,
including a rule whose pattern field was edited to the empty string.  But
editing the pattern to `""` recompiles it via `Regex::new("")`, which
succeeds, so the rule is stored as `Ok(empty regex)` — only the default
`Err("")` state is skipped at run start.  The empty regex matches
everywhere: the run on input `"a"` includes the rule and aborts with
`CycleDetected` instead of leaving the content untouched with `Done`. -/
theorem c3_emptied_pattern_not_inert :
    (getRegexInfo (getStep modelEmptied.steps 0).regexes 0).rmatch = Except.ok emptyRegex ∧
    (startReplacingText modelEmptied (some 0)).2
      = StartOutcome.started [[⟨emptyRegex, ""⟩]] "a" ∧
    replace_text false 3 "a" [[⟨emptyRegex, ""⟩]]
      = some (Except.error (CancelMotive.CycleDetected, "a")) :=
  ⟨rfl, rfl, rfl⟩

/-- C4: in every iteration of a step's fixpoint loop the engine applies at
most one rule — the first rule in priority order whose pattern matches —
replacing all occurrences of that pattern via its replacement template;
after a substitution the loop restarts from the full priority list, and
the step exits exactly when no rule matches.  Concretely, the one-step
pipeline `[("cat","dog")]` maps `"a cat sat"` to `"a dog sat"` and the
finish handler stores that output with status `Done`. -/
theorem c4_priority_restart_semantics :
    (∀ (pre post : List RuleC) (r : RuleC) (content : String),
        (∀ r' ∈ pre, r'.re.isMatch content = false) →
        r.re.isMatch content = true →
        applyFirst (pre ++ r :: post) content = some (r.re.replaceAll content r.repl)) ∧
    (∀ (rules : List RuleC) (content : String),
        (∀ r ∈ rules, r.re.isMatch content = false) →
        applyFirst rules content = none) ∧
    (∀ (cancel : Bool) (ol : Nat) (rules : List RuleC) (fuel : Nat)
        (content content' : String) (maps maps' : LenTable),
        cycleCheck maps content = some maps' → cancel = false →
        growthGuard (byteLen content) ol = false →
        applyFirst rules content = some content' →
        stepLoop cancel ol rules (fuel + 1) content maps
          = stepLoop cancel ol rules fuel content' maps') ∧
    (∀ (cancel : Bool) (ol : Nat) (rules : List RuleC) (fuel : Nat)
        (content : String) (maps maps' : LenTable),
        cycleCheck maps content = some maps' → cancel = false →
        growthGuard (byteLen content) ol = false →
        applyFirst rules content = none →
        stepLoop cancel ol rules (fuel + 1) content maps = some (Except.ok content)) ∧
    (startReplacingText modelCatDog (some 0)).2
      = StartOutcome.started [[⟨litRegex "cat", "dog"⟩]] "a cat sat" ∧
    replace_text false 2 "a cat sat" [[⟨litRegex "cat", "dog"⟩]]
      = some (Except.ok "a dog sat") ∧
    (getProject (finishReplacingText (startReplacingText modelCatDog (some 0)).1 0
        "a dog sat").text_projects 0).output_status = OutputStatus.Done := by
  refine ⟨?_, ?_, ?_, ?_, rfl, rfl, rfl⟩
  · intro pre post r content hpre hr
    induction pre with
    | nil => simp [applyFirst, hr]
    | cons p ps ih =>
      have hp : p.re.isMatch content = false := hpre p (by simp)
      simp only [List.cons_append, applyFirst, hp, Bool.false_eq_true, if_false]
      exact ih (fun r' hr' => hpre r' (by simp [hr']))
  · intro rules content hall
    induction rules with
    | nil => rfl
    | cons r rs ih =>
      have hr : r.re.isMatch content = false := hall r (by simp)
      simp only [applyFirst, hr, Bool.false_eq_true, if_false]
      exact ih (fun r' hr' => hall r' (by simp [hr']))
  · intro cancel ol rules fuel content content' maps maps' hcc hcan hg hap
    subst hcan
    simp [stepLoop, hcc, hg, hap]
  · intro cancel ol rules fuel content maps maps' hcc hcan hg hap
    subst hcan
    simp [stepLoop, hcc, hg, hap]

/-- Witness for C4 at concrete inputs. -/
theorem c4_priority_restart_semantics_witness :
    applyFirst ([] ++ (⟨litRegex "cat", "dog"⟩ : RuleC) :: []) "a cat sat"
      = some ((litRegex "cat").replaceAll "a cat sat" "dog") ∧
    applyFirst [⟨litRegex "cat", "dog"⟩] "a dog sat" = none :=
  ⟨c4_priority_restart_semantics.1 [] [] ⟨litRegex "cat", "dog"⟩ "a cat sat"
      (fun r' hr' => absurd hr' (List.not_mem_nil r')) rfl,
   c4_priority_restart_semantics.2.1 [⟨litRegex "cat", "dog"⟩] "a dog sat"
      (by intro r hr; simp at hr; rw [hr]; rfl)⟩

/-- C5: the cycle check records only the length on a length's first
occurrence; on each later occurrence it computes the CRC-32 checksum of
the content and declares a cycle — aborting the run with motive
`CycleDetected` and the current content — exactly when that checksum was
already recorded for that length, and otherwise records the checksum and
continues.  The step with rules `"a" -> "b"` and `"b" -> "a"` on input
`"a"` aborts with `CycleDetected` at the fourth iteration (two iterations
after the first length repeat). -/
theorem c5_cycle_detector :
    (∀ (maps : LenTable) (content : String),
        lookupLen maps (byteLen content) = none →
        cycleCheck maps content = some (setLen maps (byteLen content) none)) ∧
    (∀ (maps : LenTable) (content : String),
        lookupLen maps (byteLen content) = some none →
        cycleCheck maps content
          = some (setLen maps (byteLen content) (some [crc32 content]))) ∧
    (∀ (maps : LenTable) (content : String) (hashes : List Nat),
        lookupLen maps (byteLen content) = some (some hashes) →
        (cycleCheck maps content = none ↔ natMem hashes (crc32 content) = true)) ∧
    (∀ (maps : LenTable) (content : String) (hashes : List Nat),
        lookupLen maps (byteLen content) = some (some hashes) →
        natMem hashes (crc32 content) = false →
        cycleCheck maps content
          = some (setLen maps (byteLen content) (some (crc32 content :: hashes)))) ∧
    (∀ (cancel : Bool) (ol : Nat) (rules : List RuleC) (fuel : Nat)
        (content : String) (maps : LenTable),
        cycleCheck maps content = none →
        stepLoop cancel ol rules (fuel + 1) content maps
          = some (Except.error (CancelMotive.CycleDetected, content))) ∧
    replace_text false 4 "a" [[⟨litRegex "a", "b"⟩, ⟨litRegex "b", "a"⟩]]
      = some (Except.error (CancelMotive.CycleDetected, "b")) := by
  refine ⟨?_, ?_, ?_, ?_, ?_, rfl⟩
  · intro maps content h
    simp [cycleCheck, h]
  · intro maps content h
    simp [cycleCheck, h]
  · intro maps content hashes h
    simp only [cycleCheck, h]
    cases hm : natMem hashes (crc32 content) <;> simp [hm]
  · intro maps content hashes h hm
    simp [cycleCheck, h, hm]
  · intro cancel ol rules fuel content maps h
    simp [stepLoop, h]

/-- Witness for C5 at concrete inputs. -/
theorem c5_cycle_detector_witness :
    cycleCheck [] "a" = some (setLen [] (byteLen "a") none) ∧
    cycleCheck [(1, some [crc32 "a"])] "a" = none ∧
    stepLoop false 1 [] 1 "a" [(1, some [crc32 "a"])]
      = some (Except.error (CancelMotive.CycleDetected, "a")) :=
  ⟨c5_cycle_detector.1 [] "a" rfl,
   (c5_cycle_detector.2.2.1 [(1, some [crc32 "a"])] "a" [crc32 "a"] rfl).mpr (by decide),
   c5_cycle_detector.2.2.2.2.1 false 1 [] 0 "a" [(1, some [crc32 "a"])]
     ((c5_cycle_detector.2.2.1 [(1, some [crc32 "a"])] "a" [crc32 "a"] rfl).mpr (by decide))⟩

/-- C6: an iteration that reaches the growth check aborts the run with
motive `HighGrowth` and the current content if and only if the current
content length exceeds both 4 times the original length and 1000; both
conjuncts are required, so 50 characters grown from a 10-character input
never trigger the guard, while any length above 8000 grown from a
2000-character input does. -/
theorem c6_growth_guard :
    (∀ (currentLen originalLen : Nat),
        growthGuard currentLen originalLen = true ↔
          (4 * originalLen < currentLen ∧ 1000 < currentLen)) ∧
    (∀ (cancel : Bool) (ol : Nat) (rules : List RuleC) (fuel : Nat)
        (content : String) (maps maps' : LenTable),
        cycleCheck maps content = some maps' → cancel = false →
        growthGuard (byteLen content) ol = true →
        stepLoop cancel ol rules (fuel + 1) content maps
          = some (Except.error (CancelMotive.HighGrowth, content))) ∧
    (∀ (cancel : Bool) (ol : Nat) (rules : List RuleC) (fuel : Nat)
        (content : String) (maps : LenTable) (c : String),
        stepLoop cancel ol rules fuel content maps
          = some (Except.error (CancelMotive.HighGrowth, c)) →
        growthGuard (byteLen c) ol = true) ∧
    growthGuard 50 10 = false ∧
    (∀ len : Nat, 8000 < len → growthGuard len 2000 = true) := by
  refine ⟨?_, ?_, ?_, rfl, ?_⟩
  · intro currentLen originalLen
    simp [growthGuard]
  · intro cancel ol rules fuel content maps maps' hcc hcan hg
    subst hcan
    simp [stepLoop, hcc, hg]
  · intro cancel ol rules fuel content maps c h
    exact stepLoop_highGrowth_guard cancel ol rules fuel content maps c h
  · intro len hlen
    simp only [growthGuard, Bool.and_eq_true, decide_eq_true_iff]
    omega

/-- Witness for C6 at concrete inputs. -/
theorem c6_growth_guard_witness :
    growthGuard 8001 2000 = true ∧ (growthGuard 41 10 = true ↔ (40 < 41 ∧ 1000 < 41)) :=
  ⟨c6_growth_guard.2.2.2.2 8001 (by decide),
   c6_growth_guard.1 41 10⟩

/-- C7 counterexample: the claim says activity on one project does not
block starting a run or editing input on another project.  In `modelBusy`
a run is in progress on project 0 only (project 1 is idle with status
`Done`), yet the code rejects — with no state change — both an input edit
on project 1 and a run start on project 1, because the in-progress flag
is a single global, not per-project. -/
theorem c7_per_project_independence_fails :
    modelBusy.text_projects.length = 2 ∧
    (getProject modelBusy.text_projects 1).output_status = OutputStatus.Done ∧
    inputUpdated modelBusy 1 "x" = (modelBusy, false) ∧
    startReplacingText modelBusy (some 1) = (modelBusy, StartOutcome.alreadyInProgress) :=
  ⟨rfl, rfl, rfl, rfl⟩

/-- C7 (amended): a run-start request naming a project is rejected with no
state change exactly when the single global in-progress flag is set —
regardless of which project the active run belongs to — and editing any
project's input while that flag is set is likewise rejected with no state
change: run exclusivity is global, not per-project. -/
theorem c7_global_in_progress_guard (m : Model) (pi : Nat) (v : String) :
    ((startReplacingText m (some pi)).2 = StartOutcome.alreadyInProgress ↔
      m.replacement_in_progress = true) ∧
    (m.replacement_in_progress = true →
      startReplacingText m (some pi) = (m, StartOutcome.alreadyInProgress)) ∧
    ((inputUpdated m pi v).2 = false ↔ m.replacement_in_progress = true) ∧
    (m.replacement_in_progress = true → inputUpdated m pi v = (m, false)) := by
  cases hb : m.replacement_in_progress with
  | true =>
    refine ⟨?_, ?_, ?_, ?_⟩ <;> simp [startReplacingText, inputUpdated, hb]
  | false =>
    cases hcs : compileSteps m.steps with
    | error s =>
      refine ⟨?_, ?_, ?_, ?_⟩ <;> simp [startReplacingText, inputUpdated, hb, hcs]
    | ok rss =>
      refine ⟨?_, ?_, ?_, ?_⟩ <;> simp [startReplacingText, inputUpdated, hb, hcs]

/-- Witness for C7 (amended) at a concrete busy model. -/
theorem c7_global_in_progress_guard_witness :
    startReplacingText modelBusy (some 1) = (modelBusy, StartOutcome.alreadyInProgress) ∧
    inputUpdated modelBusy 1 "z" = (modelBusy, false) :=
  ⟨(c7_global_in_progress_guard modelBusy 1 "z").2.1 rfl,
   (c7_global_in_progress_guard modelBusy 1 "z").2.2.2 rfl⟩

/-- C8: whenever a run terminates, the finish handler stores the final
content with status `Done` and the cancelled handler stores the partial
content with status `Cancelled(motive)`; in both cases the in-progress
flag is cleared and the shared cancellation flag is reset to false. -/
theorem c8_terminal_transitions (m : Model) (pi : Nat) (content : String)
    (motive : CancelMotive) :
    (finishReplacingText m pi content).replacement_in_progress = false ∧
    (finishReplacingText m pi content).replacement_cancel_signal = false ∧
    (cancelledReplacingText m pi motive content).replacement_in_progress = false ∧
    (cancelledReplacingText m pi motive content).replacement_cancel_signal = false ∧
    (pi < m.text_projects.length →
      (getProject (finishReplacingText m pi content).text_projects pi).output_status
          = OutputStatus.Done ∧
      (getProject (finishReplacingText m pi content).text_projects pi).output = content ∧
      (getProject (cancelledReplacingText m pi motive content).text_projects pi).output_status
          = OutputStatus.Cancelled motive ∧
      (getProject (cancelledReplacingText m pi motive content).text_projects pi).output
          = content) := by
  refine ⟨rfl, rfl, rfl, rfl, fun h => ?_⟩
  refine ⟨?_, ?_, ?_, ?_⟩ <;>
    simp [finishReplacingText, cancelledReplacingText, getProject_updateProject, h]

/-- Witness for C8 at a concrete model with one project. -/
theorem c8_terminal_transitions_witness :
    (getProject (finishReplacingText modelFreshRule 0 "out").text_projects 0).output_status
        = OutputStatus.Done ∧
    (getProject (cancelledReplacingText modelFreshRule 0 CancelMotive.HighGrowth
        "part").text_projects 0).output_status
        = OutputStatus.Cancelled CancelMotive.HighGrowth := by
  refine ⟨((c8_terminal_transitions modelFreshRule 0 "out" CancelMotive.HighGrowth).2.2.2.2
    (by decide)).1, ?_⟩
  exact ((c8_terminal_transitions modelFreshRule 0 "part" CancelMotive.HighGrowth).2.2.2.2
    (by decide)).2.2.1

/-- C9: the length/checksum table is re-initialized (empty) at the start
of each step, and a run in which every step's fixpoint iteration trace
visits pairwise-distinct content lengths is never aborted with motive
`CycleDetected`. -/
theorem c9_no_false_cycle_detection :
    (∀ (cancel : Bool) (ol fuel : Nat) (rules : List RuleC) (rest : List (List RuleC))
        (content : String),
        replaceSteps cancel ol fuel (rules :: rest) content
          = match stepLoop cancel ol rules fuel content [] with
            | none => none
            | some (Except.error e) => some (Except.error e)
            | some (Except.ok c) => replaceSteps cancel ol fuel rest c) ∧
    (∀ (cancel : Bool) (fuel : Nat) (original : String) (steps : List (List RuleC)),
        nodupRun fuel steps original = true →
        ∀ c, replace_text cancel fuel original steps
          ≠ some (Except.error (CancelMotive.CycleDetected, c))) := by
  refine ⟨fun _ _ _ _ _ _ => rfl, ?_⟩
  intro cancel fuel original steps hnd c
  exact replaceSteps_no_cycle cancel (byteLen original) fuel steps original hnd c

/-- Witness for C9 at a concrete run whose step strictly grows the
content. -/
theorem c9_no_false_cycle_detection_witness :
    replace_text false 3 "a" [[⟨litRegex "a", "bb"⟩]]
      ≠ some (Except.error (CancelMotive.CycleDetected, "a")) :=
  c9_no_false_cycle_detection.2 false 3 "a" [[⟨litRegex "a", "bb"⟩]] rfl "a"

/-- C10: on an empty list of steps, `replace_text` is the identity on the
input for every cancellation-flag state and every fuel: no step loop runs,
so no check is ever consulted and the result is `Ok` with the input. -/
theorem c10_empty_pipeline_identity (cancel : Bool) (fuel : Nat) (original : String) :
    replace_text cancel fuel original [] = some (Except.ok original) := rfl

end Replacer
